import Mathlib

/-!
Verification of the WebSocket signaling server (`signaling_server.py`).

The development shallow-embeds the program in Lean:

* bytes are `Nat` values (`< 256` where it matters, stated explicitly);
* `WebSocketFrame.parse` / `WebSocketFrame.build` become pure functions on
  `List Nat`;
* the registry state (`self.clients`, `self.rooms`) becomes an explicit
  `ServerState` record of association lists, and the coroutine methods
  become state-passing functions that also return the list of attempted
  deliveries;
* Python dict / set operations are modelled by first-occurrence
  association-list operations (`mapSet`, `mapDel`, `setAdd`, `List.erase`),
  which agree with dicts / sets on states whose key lists are duplicate-free
  (the `wfState` predicate below).
-/

set_option maxRecDepth 10000

/-! ## Frame codec (`WebSocketFrame`, lines 17-92) -/

/-- A decoded WebSocket frame, the dictionary returned by
`WebSocketFrame.parse` (lines 65-70): fin bit, opcode, unmasked payload
bytes and the total number of bytes consumed from the buffer. -/
structure Frame where
  fin : Nat
  opcode : Nat
  payload : List Nat
  length : Nat
  deriving DecidableEq, Repr

/-- `struct.unpack('>Q', data[2:10])[0]` (line 44): the 8-byte big-endian
extended payload length located at offset 2. -/
def be8 (data : List Nat) : Nat :=
  data.getD 2 0 * 256 ^ 7 + data.getD 3 0 * 256 ^ 6 + data.getD 4 0 * 256 ^ 5 +
  data.getD 5 0 * 256 ^ 4 + data.getD 6 0 * 256 ^ 3 + data.getD 7 0 * 256 ^ 2 +
  data.getD 8 0 * 256 + data.getD 9 0

/-- Line 63: `bytes([payload[i] ^ mask_key[i % 4] for i in range(len(payload))])`. -/
def unmask (payload maskKey : List Nat) : List Nat :=
  (List.range payload.length).map fun i => payload.getD i 0 ^^^ maskKey.getD (i % 4) 0

/-- Lines 47-70 of `WebSocketFrame.parse`: after the length field has been
decoded (`payloadLen`) and the offset past it is known (`offset`), read the
optional 4-byte masking key, check that the whole payload is buffered,
unmask if needed, and assemble the frame. -/
def finishParse (data : List Nat) (fin opcode masked payloadLen offset : Nat) : Option Frame :=
  if masked = 1 then
    if data.length < offset + 4 then none
    else
      let maskKey := (data.drop offset).take 4
      if data.length < offset + 4 + payloadLen then none
      else some { fin := fin, opcode := opcode,
                  payload := unmask ((data.drop (offset + 4)).take payloadLen) maskKey,
                  length := offset + 4 + payloadLen }
  else
    if data.length < offset + payloadLen then none
    else some { fin := fin, opcode := opcode,
                payload := (data.drop offset).take payloadLen,
                length := offset + payloadLen }

/-- `WebSocketFrame.parse` (lines 20-70).  `none` is the Python `None`
("insufficient data"). -/
def parse (data : List Nat) : Option Frame :=
  if data.length < 2 then none
  else
    let byte1 := data.getD 0 0
    let byte2 := data.getD 1 0
    let fin := (byte1 &&& 128) >>> 7
    let opcode := byte1 &&& 15
    let masked := (byte2 &&& 128) >>> 7
    let payloadLen := byte2 &&& 127
    if payloadLen = 126 then
      if data.length < 4 then none
      else finishParse data fin opcode masked (data.getD 2 0 * 256 + data.getD 3 0) 4
    else if payloadLen = 127 then
      if data.length < 10 then none
      else finishParse data fin opcode masked (be8 data) 10
    else finishParse data fin opcode masked payloadLen 2

/-- `struct.pack('>H', n)` (line 86). -/
def pack2 (n : Nat) : List Nat := [n / 256 % 256, n % 256]

/-- `struct.pack('>Q', n)` (line 89); faithful for `n < 2 ^ 64`
(Python raises `struct.error` beyond that). -/
def pack8 (n : Nat) : List Nat :=
  [n / 256 ^ 7 % 256, n / 256 ^ 6 % 256, n / 256 ^ 5 % 256, n / 256 ^ 4 % 256,
   n / 256 ^ 3 % 256, n / 256 ^ 2 % 256, n / 256 % 256, n % 256]

/-- `WebSocketFrame.build` (lines 72-92), on an already-encoded payload byte
sequence.  FIN is always set, the mask bit never is. -/
def build (payload : List Nat) (opcode : Nat) : List Nat :=
  (if payload.length < 126 then [128 ||| opcode, payload.length]
   else if payload.length < 65536 then [128 ||| opcode, 126] ++ pack2 payload.length
   else [128 ||| opcode, 127] ++ pack8 payload.length) ++ payload

/-! ### Helper lemmas for the codec -/

theorem byte1_and_128 (op : Nat) (h : op < 16) : (128 ||| op) &&& 128 = 128 := by
  interval_cases op <;> decide

theorem byte1_and_15 (op : Nat) (h : op < 16) : (128 ||| op) &&& 15 = op := by
  interval_cases op <;> decide

theorem small_and_128 (n : Nat) (h : n < 128) : n &&& 128 = 0 := by
  have : n &&& 2 ^ 7 = (n.testBit 7).toNat * 2 ^ 7 := Nat.and_two_pow n 7
  rw [Nat.testBit_eq_false_of_lt h] at this
  simpa using this

theorem small_and_127 (n : Nat) (h : n < 128) : n &&& 127 = n := by
  rw [show (127 : Nat) = 2 ^ 7 - 1 from rfl, Nat.and_pow_two_sub_one_eq_mod,
    Nat.mod_eq_of_lt h]

theorem be8_build8 (n : Nat) (a b : Nat) (rest : List Nat) (h : n < 2 ^ 64) :
    be8 (a :: b :: (pack8 n ++ rest)) = n := by
  simp only [be8, pack8, List.cons_append, List.getD_cons_zero, List.getD_cons_succ]
  omega

/-- C2: parsing the bytes produced by `build payload opcode` succeeds and
returns the original payload, the same (4-bit) opcode, `fin = 1`, and a
consumed-byte count equal to the length of the built frame.  All three
length-encoding tiers (direct `< 126`, 2-byte `< 65536`, 8-byte otherwise)
are covered; `payload.length < 2 ^ 64` is the range in which
`struct.pack('>Q', ...)` is defined. -/
theorem parse_build_roundtrip (payload : List Nat) (opcode : Nat)
    (hop : opcode < 16) (hlen : payload.length < 2 ^ 64) :
    parse (build payload opcode) =
      some { fin := 1, opcode := opcode, payload := payload,
             length := (build payload opcode).length } := by
  have hfin : ((128 ||| opcode) &&& 128) >>> 7 = 1 := by
    rw [byte1_and_128 _ hop]
    decide
  have hop15 := byte1_and_15 _ hop
  by_cases h1 : payload.length < 126
  · have hd : build payload opcode = (128 ||| opcode) :: payload.length :: payload := by
      simp [build, h1]
    have hmask : (payload.length &&& 128) >>> 7 = 0 := by
      rw [small_and_128 _ (by omega)]
      decide
    have h127 : payload.length &&& 127 = payload.length := small_and_127 _ (by omega)
    have hne1 : payload.length ≠ 126 := by omega
    have hne2 : payload.length ≠ 127 := by omega
    rw [hd]
    simp [parse, finishParse, hfin, hop15, hmask, h127, hne1, hne2]
    omega
  · by_cases h2 : payload.length < 65536
    · have hd : build payload opcode =
          (128 ||| opcode) :: 126 :: (payload.length / 256 % 256) ::
            (payload.length % 256) :: payload := by
        simp [build, pack2, h1, h2]
      have hpl : payload.length / 256 % 256 * 256 + payload.length % 256 = payload.length := by
        omega
      rw [hd]
      simp [parse, finishParse, hpl, hfin, hop15,
        show ((126 : Nat) &&& 127) = 126 from by decide,
        show (((126 : Nat) &&& 128) >>> 7) = 0 from by decide]
      omega
    · have hd : build payload opcode =
          (128 ||| opcode) :: 127 :: (pack8 payload.length ++ payload) := by
        simp [build, h1, h2]
      have hbe : be8 ((128 ||| opcode) :: 127 :: (pack8 payload.length ++ payload)) =
          payload.length := be8_build8 _ _ _ _ hlen
      have hlen8 : (pack8 payload.length).length = 8 := rfl
      have hdrop8 : (pack8 payload.length ++ payload).drop 8 = payload := by
        simp [pack8]
      rw [hd]
      simp [parse, finishParse, hbe, hfin, hop15, hlen8, hdrop8,
        show ((127 : Nat) &&& 127) = 127 from by decide,
        show (((127 : Nat) &&& 128) >>> 7) = 0 from by decide]
      omega

/-- Witness for C2 at opcode 1 and the empty payload. -/
theorem parse_build_roundtrip_witness :
    (1 : Nat) < 16 ∧ ([] : List Nat).length < 2 ^ 64 ∧
      parse (build [] 1) =
        some { fin := 1, opcode := 1, payload := [],
               length := (build ([] : List Nat) 1).length } :=
  ⟨by decide, by decide, parse_build_roundtrip [] 1 (by decide) (by decide)⟩

/-! ### Header readings (lines 26-46 of `parse`, named for reuse) -/

/-- The 7-bit length field `byte2 & 0b01111111` (line 31). -/
def lenField (data : List Nat) : Nat := data.getD 1 0 &&& 127

/-- The mask flag `(byte2 & 0b10000000) >> 7` (line 30). -/
def maskBit (data : List Nat) : Nat := (data.getD 1 0 &&& 128) >>> 7

/-- Offset of the byte just past the (possibly extended) length field
(lines 33-45). -/
def extOffset (data : List Nat) : Nat :=
  if lenField data = 126 then 4 else if lenField data = 127 then 10 else 2

/-- The payload length announced by the header (lines 36-45). -/
def declaredLen (data : List Nat) : Nat :=
  if lenField data = 126 then data.getD 2 0 * 256 + data.getD 3 0
  else if lenField data = 127 then be8 data
  else lenField data

/-- Total number of bytes a complete frame with this header occupies:
length field, optional 4-byte masking key, payload. -/
def totalLen (data : List Nat) : Nat :=
  extOffset data + (if maskBit data = 1 then 4 else 0) + declaredLen data

theorem two_le_totalLen (d : List Nat) : 2 ≤ totalLen d := by
  unfold totalLen extOffset
  by_cases h1 : lenField d = 126 <;> by_cases h2 : lenField d = 127 <;>
    simp [h1, h2] <;> omega

theorem finishParse_some_total (d : List Nat) (f o m pl off : Nat) (fr : Frame)
    (h : finishParse d f o m pl off = some fr) :
    fr.length = off + (if m = 1 then 4 else 0) + pl ∧ fr.length ≤ d.length := by
  unfold finishParse at h
  by_cases hm : m = 1
  · rw [if_pos hm] at h
    by_cases hA : d.length < off + 4
    · rw [if_pos hA] at h; exact absurd h (by simp)
    rw [if_neg hA] at h
    simp only [] at h
    by_cases hB : d.length < off + 4 + pl
    · rw [if_pos hB] at h; exact absurd h (by simp)
    rw [if_neg hB, Option.some.injEq] at h
    subst h
    simp [hm]
    omega
  · rw [if_neg hm] at h
    by_cases hC : d.length < off + pl
    · rw [if_pos hC] at h; exact absurd h (by simp)
    rw [if_neg hC, Option.some.injEq] at h
    subst h
    simp [hm]
    omega

theorem finishParse_none_of_short (d : List Nat) (f o m pl off : Nat)
    (h : d.length < off + (if m = 1 then 4 else 0) + pl) :
    finishParse d f o m pl off = none := by
  unfold finishParse
  by_cases hm : m = 1
  · rw [if_pos hm]
    rw [if_pos hm] at h
    by_cases hA : d.length < off + 4
    · rw [if_pos hA]
    · rw [if_neg hA]
      simp only []
      rw [if_pos (by omega)]
  · rw [if_neg hm]
    rw [if_neg hm] at h
    rw [if_pos (by omega)]

theorem parse_some_total (d : List Nat) (fr : Frame) (h : parse d = some fr) :
    fr.length = totalLen d ∧ fr.length ≤ d.length ∧ ¬d.length < 2 := by
  unfold parse at h
  by_cases h2 : d.length < 2
  · rw [if_pos h2] at h; exact absurd h (by simp)
  rw [if_neg h2] at h
  simp only [] at h
  refine ?_
  by_cases hc1 : d.getD 1 0 &&& 127 = 126
  · rw [if_pos hc1] at h
    by_cases hc4 : d.length < 4
    · rw [if_pos hc4] at h; exact absurd h (by simp)
    rw [if_neg hc4] at h
    obtain ⟨hA, hB⟩ := finishParse_some_total _ _ _ _ _ _ _ h
    refine ⟨?_, hB, h2⟩
    rw [hA]
    simp only [totalLen, extOffset, declaredLen, lenField, maskBit, if_pos hc1]
  · rw [if_neg hc1] at h
    by_cases hc2 : d.getD 1 0 &&& 127 = 127
    · rw [if_pos hc2] at h
      by_cases hc10 : d.length < 10
      · rw [if_pos hc10] at h; exact absurd h (by simp)
      rw [if_neg hc10] at h
      obtain ⟨hA, hB⟩ := finishParse_some_total _ _ _ _ _ _ _ h
      refine ⟨?_, hB, h2⟩
      rw [hA]
      simp only [totalLen, extOffset, declaredLen, lenField, maskBit, if_neg hc1, if_pos hc2]
    · rw [if_neg hc2] at h
      obtain ⟨hA, hB⟩ := finishParse_some_total _ _ _ _ _ _ _ h
      refine ⟨?_, hB, h2⟩
      rw [hA]
      simp only [totalLen, extOffset, declaredLen, lenField, maskBit, if_neg hc1, if_neg hc2]

theorem parse_none_of_short (d : List Nat) (hshort : d.length < totalLen d) :
    parse d = none := by
  cases hq : parse d with
  | none => rfl
  | some fr =>
    obtain ⟨h1, h2, _⟩ := parse_some_total d fr hq
    omega

theorem getD_take_of_lt {l : List Nat} {k i : Nat} (h : i < k) :
    (l.take k).getD i 0 = l.getD i 0 := by
  simp [List.getD_eq_getElem?_getD, List.getElem?_take_of_lt h]

theorem parse_take_none (F : List Nat) (fr : Frame) (hp : parse F = some fr)
    (hex : fr.length = F.length) (k : Nat) (hk : k < F.length) :
    parse (F.take k) = none := by
  obtain ⟨htot, hle, hF2⟩ := parse_some_total F fr hp
  apply parse_none_of_short
  have hlt : (F.take k).length = k := by rw [List.length_take]; omega
  rw [hlt]
  by_cases hk2 : k < 2
  · have := two_le_totalLen (F.take k); omega
  have g1 : (F.take k).getD 1 0 = F.getD 1 0 := getD_take_of_lt (by omega)
  have hlf : lenField (F.take k) = lenField F := by unfold lenField; rw [g1]
  have hmb : maskBit (F.take k) = maskBit F := by unfold maskBit; rw [g1]
  by_cases hc1 : lenField F = 126
  · by_cases hk4 : k < 4
    · have h4 : 4 ≤ totalLen (F.take k) := by
        simp only [totalLen, extOffset, hlf, if_pos hc1]; omega
      omega
    · have g2 : (F.take k).getD 2 0 = F.getD 2 0 := getD_take_of_lt (by omega)
      have g3 : (F.take k).getD 3 0 = F.getD 3 0 := getD_take_of_lt (by omega)
      have heq : totalLen (F.take k) = totalLen F := by
        simp only [totalLen, extOffset, declaredLen, hlf, hmb, if_pos hc1, g2, g3]
      omega
  by_cases hc2 : lenField F = 127
  · by_cases hk10 : k < 10
    · have h10 : 10 ≤ totalLen (F.take k) := by
        simp only [totalLen, extOffset, hlf, if_neg hc1, if_pos hc2]; omega
      omega
    · have hbe : be8 (F.take k) = be8 F := by
        unfold be8
        rw [getD_take_of_lt (show 2 < k by omega), getD_take_of_lt (show 3 < k by omega),
          getD_take_of_lt (show 4 < k by omega), getD_take_of_lt (show 5 < k by omega),
          getD_take_of_lt (show 6 < k by omega), getD_take_of_lt (show 7 < k by omega),
          getD_take_of_lt (show 8 < k by omega), getD_take_of_lt (show 9 < k by omega)]
      have heq : totalLen (F.take k) = totalLen F := by
        simp only [totalLen, extOffset, declaredLen, hlf, hmb, if_neg hc1, if_pos hc2, hbe]
      omega
  · have heq : totalLen (F.take k) = totalLen F := by
      simp only [totalLen, extOffset, declaredLen, hlf, hmb, if_neg hc1, if_neg hc2]
    omega

/-- The inner `while buffer:` loop of `handle_client` (lines 165-170)
restricted to frame extraction: repeatedly parse the buffer and slice the
consumed bytes off its front, collecting the parsed frames, until parse
reports insufficient data.  `fuel` bounds the number of iterations;
`buffer.length` always suffices because each parsed frame consumes at
least two bytes. -/
def drainFuel : Nat → List Nat → List Frame × List Nat
  | 0, buffer => ([], buffer)
  | fuel + 1, buffer =>
    if buffer = [] then ([], buffer)
    else
      match parse buffer with
      | none => ([], buffer)
      | some fr =>
        let res := drainFuel fuel (buffer.drop fr.length)
        (fr :: res.1, res.2)

def drainBuffer (buffer : List Nat) : List Frame × List Nat :=
  drainFuel buffer.length buffer

/-- One outer read-loop iteration (lines 159-170): append the newly read
chunk to the retained buffer and drain it. -/
def feedStep (acc : List Frame × List Nat) (c : List Nat) : List Frame × List Nat :=
  let res := drainBuffer (acc.2 ++ c)
  (acc.1 ++ res.1, res.2)

/-- All frames parsed when the byte chunks are fed to the read loop in
order, starting from an empty buffer. -/
def feedChunks (chunks : List (List Nat)) : List Frame :=
  (chunks.foldl feedStep ([], [])).1

theorem drainFuel_none (f : Nat) (b : List Nat) (h : parse b = none) :
    drainFuel f b = ([], b) := by
  cases f with
  | zero => rfl
  | succ f =>
    unfold drainFuel
    by_cases hb : b = []
    · simp [hb]
    · simp [hb, h]

theorem drainFuel_nil (f : Nat) : drainFuel f [] = ([], []) := by
  cases f <;> rfl

theorem drainBuffer_full (F : List Nat) (fr : Frame) (hp : parse F = some fr)
    (hex : fr.length = F.length) : drainBuffer F = ([fr], []) := by
  obtain ⟨_, _, hF2⟩ := parse_some_total F fr hp
  have hne : F ≠ [] := by
    intro hFnil; rw [hFnil] at hF2; simp at hF2
  unfold drainBuffer
  have hL : F.length = (F.length - 1) + 1 := by
    have := List.length_pos.mpr hne; omega
  rw [hL]
  unfold drainFuel
  rw [if_neg hne, hp]
  simp [hex, List.drop_length, drainFuel_nil]

theorem feed_foldl_incomplete (F : List Nat) (fr : Frame) (hp : parse F = some fr)
    (hex : fr.length = F.length) (cs : List (List Nat)) :
    ∀ k : Nat, (F.take k ++ cs.flatten) <+: F → k + cs.flatten.length < F.length →
      cs.foldl feedStep ([], F.take k) = ([], F.take (k + cs.flatten.length)) := by
  induction cs with
  | nil =>
    intro k hpre hlt
    simp
  | cons c cs ih =>
    intro k hpre hlt
    rw [List.flatten_cons] at hpre
    rw [List.flatten_cons, List.length_append] at hlt
    have hlenk : (F.take k).length = k := by rw [List.length_take]; omega
    have hpre1 : (F.take k ++ c) <+: F := by
      rcases hpre with ⟨t, ht⟩
      refine ⟨cs.flatten ++ t, ?_⟩
      simp only [← List.append_assoc] at ht ⊢
      exact ht
    have hbuf : F.take k ++ c = F.take (k + c.length) := by
      have h := List.prefix_iff_eq_take.mp hpre1
      rwa [List.length_append, hlenk] at h
    have hcl : k + c.length < F.length := by omega
    rw [List.foldl_cons]
    have hstep : feedStep ([], F.take k) c = ([], F.take (k + c.length)) := by
      simp only [feedStep, drainBuffer]
      rw [List.nil_append, hbuf, drainFuel_none _ _ (parse_take_none F fr hp hex _ hcl)]
    rw [hstep]
    have hpre2 : (F.take (k + c.length) ++ cs.flatten) <+: F := by
      rcases hpre with ⟨t, ht⟩
      refine ⟨t, ?_⟩
      rw [← hbuf]
      simp only [← List.append_assoc] at ht ⊢
      exact ht
    have := ih (k + c.length) hpre2 (by omega)
    rw [this, List.flatten_cons, List.length_append, ← Nat.add_assoc]

theorem feed_tail_nil (cs : List (List Nat)) (h : cs.flatten = []) :
    ∀ acc1 : List Frame, cs.foldl feedStep (acc1, []) = (acc1, []) := by
  induction cs with
  | nil => intro acc1; rfl
  | cons c cs ih =>
    intro acc1
    rw [List.flatten_cons] at h
    obtain ⟨hc, hcs⟩ := List.append_eq_nil.mp h
    subst hc
    rw [List.foldl_cons]
    have hstep : feedStep (acc1, ([] : List Nat)) [] = (acc1, []) := by
      simp [feedStep, drainBuffer, drainFuel_nil]
    rw [hstep]
    exact ih hcs acc1

theorem feed_foldl_complete (F : List Nat) (fr : Frame) (hp : parse F = some fr)
    (hex : fr.length = F.length) (cs : List (List Nat)) :
    ∀ k : Nat, F.take k ++ cs.flatten = F → k < F.length →
      (cs.foldl feedStep ([], F.take k)).1 = [fr] := by
  induction cs with
  | nil =>
    intro k heq hk
    exfalso
    rw [List.flatten_nil, List.append_nil] at heq
    have hl : (F.take k).length = k := by rw [List.length_take]; omega
    rw [heq] at hl
    omega
  | cons c cs ih =>
    intro k heq hk
    have hlenk : (F.take k).length = k := by rw [List.length_take]; omega
    rw [List.flatten_cons] at heq
    have hpre1 : (F.take k ++ c) <+: F := ⟨cs.flatten, by rw [List.append_assoc]; exact heq⟩
    have hlen1 : k + c.length ≤ F.length := by
      have hh := hpre1.length_le
      rw [List.length_append, hlenk] at hh
      exact hh
    by_cases hcl : k + c.length < F.length
    · have hbuf : F.take k ++ c = F.take (k + c.length) := by
        have h := List.prefix_iff_eq_take.mp hpre1
        rwa [List.length_append, hlenk] at h
      rw [List.foldl_cons]
      have hstep : feedStep ([], F.take k) c = ([], F.take (k + c.length)) := by
        simp only [feedStep, drainBuffer]
        rw [List.nil_append, hbuf, drainFuel_none _ _ (parse_take_none F fr hp hex _ hcl)]
      rw [hstep]
      apply ih
      · rw [← hbuf, List.append_assoc]
        exact heq
      · exact hcl
    · have heqlen : k + c.length = F.length := by omega
      have hFtake : F.take k ++ c = F := by
        have h := List.prefix_iff_eq_take.mp hpre1
        rw [List.length_append, hlenk, heqlen, List.take_length] at h
        exact h
      have hflat_nil : cs.flatten = [] := by
        have h2 : F ++ cs.flatten = F := by
          conv_lhs => rw [← hFtake]
          rw [List.append_assoc]
          exact heq
        have h3 := congrArg List.length h2
        rw [List.length_append] at h3
        exact List.eq_nil_of_length_eq_zero (by omega)
      rw [List.foldl_cons]
      have hstep : feedStep ([], F.take k) c = ([fr], []) := by
        simp only [feedStep, drainBuffer]
        rw [List.nil_append, hFtake,
          show drainFuel F.length F = ([fr], []) from drainBuffer_full F fr hp hex]
      rw [hstep]
      rw [feed_tail_nil cs hflat_nil [fr]]

/-- C3: every strict prefix of a complete frame — whether it is missing
header bytes, extended-length bytes, masking-key bytes or payload bytes —
parses to `none` ("insufficient data", not an error); consequently feeding
the frame's bytes to the read loop in arbitrary chunks yields no parsed
frame while any byte is missing and exactly one parsed frame once all
bytes are present. -/
theorem prefix_insufficient_and_streaming (F : List Nat) (fr : Frame)
    (hp : parse F = some fr) (hex : fr.length = F.length) :
    (∀ k, k < F.length → parse (F.take k) = none) ∧
    (∀ chunks : List (List Nat), chunks.flatten = F →
      feedChunks chunks = [fr] ∧
      ∀ j, (chunks.take j).flatten.length < F.length →
        feedChunks (chunks.take j) = []) := by
  constructor
  · intro k hk
    exact parse_take_none F fr hp hex k hk
  · intro chunks hflat
    have hF2 : ¬F.length < 2 := (parse_some_total F fr hp).2.2
    constructor
    · have hcpl := feed_foldl_complete F fr hp hex chunks 0
        (by simpa using hflat) (by omega)
      unfold feedChunks
      simpa using hcpl
    · intro j hj
      unfold feedChunks
      have hpre : (F.take 0 ++ (chunks.take j).flatten) <+: F := by
        refine ⟨(chunks.drop j).flatten, ?_⟩
        rw [List.take_zero, List.nil_append, ← List.flatten_append,
          List.take_append_drop, hflat]
      have hinc := feed_foldl_incomplete F fr hp hex (chunks.take j) 0 hpre
        (by simpa using hj)
      simp only [List.take_zero] at hinc
      rw [hinc]

/-- Witness for C3 on the 3-byte frame built from payload `[7]`. -/
theorem prefix_insufficient_and_streaming_witness :
    parse [129, 1, 7] = some ⟨1, 1, [7], 3⟩ ∧
      (⟨1, 1, [7], 3⟩ : Frame).length = ([129, 1, 7] : List Nat).length ∧
      ((∀ k, k < ([129, 1, 7] : List Nat).length →
          parse (([129, 1, 7] : List Nat).take k) = none) ∧
        (∀ chunks : List (List Nat), chunks.flatten = [129, 1, 7] →
          feedChunks chunks = [⟨1, 1, [7], 3⟩] ∧
          ∀ j, (chunks.take j).flatten.length < ([129, 1, 7] : List Nat).length →
            feedChunks (chunks.take j) = [])) :=
  ⟨by decide, by decide,
    prefix_insufficient_and_streaming [129, 1, 7] ⟨1, 1, [7], 3⟩ (by decide) (by decide)⟩

/-! ### Masked frames (C4) -/

theorem unmask_getD (raw key : List Nat) (i : Nat) (hi : i < raw.length) :
    (unmask raw key).getD i 0 = raw.getD i 0 ^^^ key.getD (i % 4) 0 := by
  unfold unmask
  rw [List.getD_eq_getElem?_getD, List.getElem?_map, List.getElem?_range hi]
  simp [List.getD_eq_getElem?_getD]

theorem unmask_length (raw key : List Nat) : (unmask raw key).length = raw.length := by
  simp [unmask]

theorem getD_drop_take (l : List Nat) (a b i : Nat) (hi : i < b) :
    ((l.drop a).take b).getD i 0 = l.getD (a + i) 0 := by
  rw [List.getD_eq_getElem?_getD, List.getElem?_take_of_lt hi, List.getElem?_drop,
    ← List.getD_eq_getElem?_getD]

theorem finishParse_masked_some (d : List Nat) (f o pl off : Nat) (fr : Frame)
    (h : finishParse d f o 1 pl off = some fr) :
    fr.length = off + 4 + pl ∧
    fr.payload = unmask ((d.drop (off + 4)).take pl) ((d.drop off).take 4) ∧
    off + 4 + pl ≤ d.length := by
  unfold finishParse at h
  rw [if_pos rfl] at h
  by_cases hA : d.length < off + 4
  · rw [if_pos hA] at h; exact absurd h (by simp)
  rw [if_neg hA] at h
  simp only [] at h
  by_cases hB : d.length < off + 4 + pl
  · rw [if_pos hB] at h; exact absurd h (by simp)
  rw [if_neg hB, Option.some.injEq] at h
  subst h
  exact ⟨rfl, rfl, by omega⟩

theorem finishParse_masked_spec (d : List Nat) (f o pl off : Nat) (fr : Frame)
    (h : finishParse d f o 1 pl off = some fr) :
    fr.length = off + 4 + pl ∧ fr.payload.length = pl ∧
    ∀ i, i < pl → fr.payload.getD i 0 = d.getD (off + 4 + i) 0 ^^^ d.getD (off + i % 4) 0 := by
  obtain ⟨h1, h2, h3⟩ := finishParse_masked_some d f o pl off fr h
  have hraw : ((d.drop (off + 4)).take pl).length = pl := by
    rw [List.length_take, List.length_drop]; omega
  refine ⟨h1, ?_, ?_⟩
  · rw [h2, unmask_length, hraw]
  · intro i hi
    rw [h2, unmask_getD _ _ _ (by rw [hraw]; exact hi)]
    rw [getD_drop_take _ _ _ _ hi, getD_drop_take _ _ _ _ (Nat.mod_lt _ (by omega))]

/-- C4: whenever `parse` succeeds on a frame whose mask flag is set, the
4-byte masking key read immediately after the length field is XORed into
the payload — returned byte `i` is raw payload byte `i` XOR `key[i % 4]` —
the consumed-byte count includes the 4 key bytes, and the key bytes are
not part of the returned payload (which starts 4 bytes after the length
field). -/
theorem parse_masked_frame (data : List Nat) (fr : Frame)
    (hp : parse data = some fr) (hm : data.getD 1 0 &&& 128 = 128) :
    fr.length = extOffset data + 4 + declaredLen data ∧
    fr.payload.length = declaredLen data ∧
    ∀ i, i < declaredLen data →
      fr.payload.getD i 0 =
        data.getD (extOffset data + 4 + i) 0 ^^^ data.getD (extOffset data + i % 4) 0 := by
  have hm1 : (data.getD 1 0 &&& 128) >>> 7 = 1 := by rw [hm]; decide
  unfold parse at hp
  by_cases h2 : data.length < 2
  · rw [if_pos h2] at hp; exact absurd hp (by simp)
  rw [if_neg h2] at hp
  simp only [] at hp
  rw [hm1] at hp
  by_cases hc1 : data.getD 1 0 &&& 127 = 126
  · rw [if_pos hc1] at hp
    by_cases hc4 : data.length < 4
    · rw [if_pos hc4] at hp; exact absurd hp (by simp)
    rw [if_neg hc4] at hp
    have hoff : extOffset data = 4 := by simp only [extOffset, lenField, if_pos hc1]
    have hdl : declaredLen data = data.getD 2 0 * 256 + data.getD 3 0 := by
      simp only [declaredLen, lenField, if_pos hc1]
    rw [hoff, hdl]
    exact finishParse_masked_spec _ _ _ _ _ _ hp
  · rw [if_neg hc1] at hp
    by_cases hc2 : data.getD 1 0 &&& 127 = 127
    · rw [if_pos hc2] at hp
      by_cases hc10 : data.length < 10
      · rw [if_pos hc10] at hp; exact absurd hp (by simp)
      rw [if_neg hc10] at hp
      have hoff : extOffset data = 10 := by
        simp only [extOffset, lenField, if_neg hc1, if_pos hc2]
      have hdl : declaredLen data = be8 data := by
        simp only [declaredLen, lenField, if_neg hc1, if_pos hc2]
      rw [hoff, hdl]
      exact finishParse_masked_spec _ _ _ _ _ _ hp
    · rw [if_neg hc2] at hp
      have hoff : extOffset data = 2 := by
        simp only [extOffset, lenField, if_neg hc1, if_neg hc2]
      have hdl : declaredLen data = data.getD 1 0 &&& 127 := by
        simp only [declaredLen, lenField, if_neg hc1, if_neg hc2]
      rw [hoff, hdl]
      exact finishParse_masked_spec _ _ _ _ _ _ hp

/-- Witness for C4 on a concrete masked frame: header `[129, 131]`
(fin/text, masked, length 3), key `[1, 2, 3, 4]`, raw payload
`[10, 20, 30]`. -/
theorem parse_masked_frame_witness :
    parse [129, 131, 1, 2, 3, 4, 10, 20, 30] = some ⟨1, 1, [11, 22, 29], 9⟩ ∧
      ([129, 131, 1, 2, 3, 4, 10, 20, 30] : List Nat).getD 1 0 &&& 128 = 128 ∧
      ((⟨1, 1, [11, 22, 29], 9⟩ : Frame).length =
          extOffset [129, 131, 1, 2, 3, 4, 10, 20, 30] + 4 +
            declaredLen [129, 131, 1, 2, 3, 4, 10, 20, 30] ∧
        (⟨1, 1, [11, 22, 29], 9⟩ : Frame).payload.length =
          declaredLen [129, 131, 1, 2, 3, 4, 10, 20, 30] ∧
        ∀ i, i < declaredLen [129, 131, 1, 2, 3, 4, 10, 20, 30] →
          (⟨1, 1, [11, 22, 29], 9⟩ : Frame).payload.getD i 0 =
            ([129, 131, 1, 2, 3, 4, 10, 20, 30] : List Nat).getD
                (extOffset [129, 131, 1, 2, 3, 4, 10, 20, 30] + 4 + i) 0 ^^^
              ([129, 131, 1, 2, 3, 4, 10, 20, 30] : List Nat).getD
                (extOffset [129, 131, 1, 2, 3, 4, 10, 20, 30] + i % 4) 0) :=
  ⟨by decide, by decide,
    parse_masked_frame [129, 131, 1, 2, 3, 4, 10, 20, 30] ⟨1, 1, [11, 22, 29], 9⟩
      (by decide) (by decide)⟩

/-! ## Handshake accept key (`generate_accept_key`, lines 189-193)

`hashlib.sha1` and `base64.b64encode` are Python standard-library
primitives, not code of this repository; they are embedded below by their
standard definitions (FIPS 180-1 SHA-1, RFC 4648 base64) so that the
accept-key computation can be evaluated inside Lean. -/

/-- Left-rotation of a 32-bit word. -/
def rotl32 (n x : Nat) : Nat := ((x <<< n) ||| (x >>> (32 - n))) % 4294967296

/-- Big-endian 4-byte encoding of a 32-bit word. -/
def pack4 (n : Nat) : List Nat :=
  [n / 16777216 % 256, n / 65536 % 256, n / 256 % 256, n % 256]

/-- SHA-1 message-schedule extension: append `count` further words, each
the 1-bit left-rotation of the XOR of the words 3, 8, 14 and 16 places
back. -/
def sha1Extend (ws : List Nat) : Nat → List Nat
  | 0 => ws
  | count + 1 =>
    sha1Extend
      (ws ++ [rotl32 1 (ws.getD (ws.length - 3) 0 ^^^ ws.getD (ws.length - 8) 0 ^^^
        ws.getD (ws.length - 14) 0 ^^^ ws.getD (ws.length - 16) 0)]) count

/-- The SHA-1 round function for round `i`. -/
def sha1F (i b c d : Nat) : Nat :=
  if i < 20 then (b &&& c) ||| ((b ^^^ 4294967295) &&& d)
  else if i < 40 then b ^^^ c ^^^ d
  else if i < 60 then (b &&& c) ||| (b &&& d) ||| (c &&& d)
  else b ^^^ c ^^^ d

/-- The SHA-1 round constant for round `i`. -/
def sha1K (i : Nat) : Nat :=
  if i < 20 then 1518500249
  else if i < 40 then 1859775393
  else if i < 60 then 2400959708
  else 3395469782

/-- Process one 64-byte block, updating the five 32-bit state words. -/
def sha1Block (h : List Nat) (block : List Nat) : List Nat :=
  let ws0 := (List.range 16).map fun i =>
    block.getD (4 * i) 0 * 16777216 + block.getD (4 * i + 1) 0 * 65536 +
      block.getD (4 * i + 2) 0 * 256 + block.getD (4 * i + 3) 0
  let ws := sha1Extend ws0 64
  let final := (List.range 80).foldl
    (fun st i =>
      let temp := (rotl32 5 st.1 + sha1F i st.2.1 st.2.2.1 st.2.2.2.1 + st.2.2.2.2 +
        sha1K i + ws.getD i 0) % 4294967296
      (temp, st.1, rotl32 30 st.2.1, st.2.2.1, st.2.2.2.1))
    (h.getD 0 0, h.getD 1 0, h.getD 2 0, h.getD 3 0, h.getD 4 0)
  [(h.getD 0 0 + final.1) % 4294967296, (h.getD 1 0 + final.2.1) % 4294967296,
   (h.getD 2 0 + final.2.2.1) % 4294967296, (h.getD 3 0 + final.2.2.2.1) % 4294967296,
   (h.getD 4 0 + final.2.2.2.2) % 4294967296]

/-- SHA-1 padding: a `0x80` byte, zero bytes up to 56 mod 64, then the
8-byte big-endian bit length. -/
def sha1Pad (msg : List Nat) : List Nat :=
  msg ++ [128] ++ List.replicate ((119 - msg.length % 64) % 64) 0 ++ pack8 (msg.length * 8)

/-- Split into successive 64-byte blocks (`fuel` bounds the recursion;
the padded length suffices). -/
def chunk64 : Nat → List Nat → List (List Nat)
  | 0, _ => []
  | _, [] => []
  | fuel + 1, l => l.take 64 :: chunk64 fuel (l.drop 64)

/-- SHA-1 digest (20 bytes) of a byte sequence. -/
def sha1 (msg : List Nat) : List Nat :=
  let padded := sha1Pad msg
  let hs := (chunk64 padded.length padded).foldl sha1Block
    [1732584193, 4023233417, 2562383102, 271733878, 3285377520]
  (hs.map pack4).flatten

/-- The RFC 4648 base64 alphabet. -/
def b64Char (n : Nat) : Char :=
  "ABCDEFGHIJKLMNOPQRSTUVWXYZabcdefghijklmnopqrstuvwxyz0123456789+/".toList.getD n '?'

/-- RFC 4648 base64 encoding of a byte sequence, with `=` padding. -/
def b64encode : List Nat → List Char
  | a :: b :: c :: rest =>
    let n := a % 256 * 65536 + b % 256 * 256 + c % 256
    b64Char (n / 262144) :: b64Char (n / 4096 % 64) :: b64Char (n / 64 % 64) ::
      b64Char (n % 64) :: b64encode rest
  | [a, b] =>
    let n := a % 256 * 65536 + b % 256 * 256
    [b64Char (n / 262144), b64Char (n / 4096 % 64), b64Char (n / 64 % 64), '=']
  | [a] =>
    let n := a % 256 * 65536
    [b64Char (n / 262144), b64Char (n / 4096 % 64), '=', '=']
  | [] => []

/-- UTF-8 bytes of the fixed protocol constant
`258EAFA5-E914-47DA-95CA-C5AB0DC85B11` (line 191; the string is ASCII, so
its UTF-8 bytes are its code points). -/
def magicBytes : List Nat :=
  "258EAFA5-E914-47DA-95CA-C5AB0DC85B11".toList.map Char.toNat

/-- `SignalingServer.generate_accept_key` (lines 189-193) on the UTF-8
bytes of the client key: append the magic constant, take the SHA-1
digest, base64-encode it. -/
def generate_accept_key (keyBytes : List Nat) : List Char :=
  b64encode (sha1 (keyBytes ++ magicBytes))

/-- C5: for every client key, the accept key is the base64 encoding of
the SHA-1 digest of the key bytes followed by the fixed protocol constant
`258EAFA5-E914-47DA-95CA-C5AB0DC85B11`; in particular the RFC 6455 sample
key `dGhlIHNhbXBsZSBub25jZQ==` yields exactly
`s3pPLMBiTxaQ9kYGzzhZRbK+xOo=`. -/
theorem accept_key_spec :
    (∀ keyBytes : List Nat,
      generate_accept_key keyBytes = b64encode (sha1 (keyBytes ++ magicBytes))) ∧
    generate_accept_key ("dGhlIHNhbXBsZSBub25jZQ==".toList.map Char.toNat) =
      "s3pPLMBiTxaQ9kYGzzhZRbK+xOo=".toList :=
  ⟨fun _ => rfl, by decide⟩

/-! ## Server state model (`SignalingServer`, lines 95-276) -/

/-- A decoded JSON value (the result of `json.loads`).  Objects and
arrays are encoded as cons-chains (rather than nested lists) so that
decidable equality is derivable; numbers are modelled as integers, which
is enough for every claim (none depends on float values). -/
inductive JVal where
  | jnull
  | jbool (b : Bool)
  | jnum (n : Int)
  | jstr (s : String)
  | arrNil
  | arrCons (head tail : JVal)
  | objNil
  | objCons (key : String) (val rest : JVal)
  deriving DecidableEq, Repr

/-- `data.get(key)` on a decoded JSON value: the value bound to `key` in
an object, `none` for a missing key.  A non-object value also yields
`none`: there CPython raises `AttributeError`, which the surrounding
`except` of `handle_message` turns into the same silent drop. -/
def jget : JVal → String → Option JVal
  | .objCons k v rest, key => if k = key then some v else jget rest key
  | _, _ => none

/-- Python hashability of a JSON value: lists and dicts cannot be dict
keys, so using one as a room id raises `TypeError`, which
`handle_message` catches (silent drop, no mutation). -/
def jhashable : JVal → Bool
  | .arrNil => false
  | .arrCons _ _ => false
  | .objNil => false
  | .objCons _ _ _ => false
  | _ => true

/-- Connection handles (`id(writer)`). -/
abbrev ConnId := Nat

/-- The per-connection record stored in `self.clients` (lines 149-154);
of its fields only the room set is registry state. -/
structure ClientInfo where
  rooms : List JVal
  deriving DecidableEq, Repr

/-- The registry state of the server: `self.clients` and `self.rooms`
(lines 101-102), as first-occurrence association lists (the dict shape —
duplicate-free keys — is tracked by `goodServer` below). -/
structure ServerState where
  clients : List (ConnId × ClientInfo)
  rooms : List (JVal × List ConnId)
  deriving DecidableEq, Repr

/-- Dict lookup `m.get(k)` on an association list (first binding). -/
def mapGet {α β : Type} [DecidableEq α] : List (α × β) → α → Option β
  | [], _ => none
  | (k0, v0) :: rest, k => if k0 = k then some v0 else mapGet rest k

/-- Dict update `m[k] = v`: replace the first binding of `k`, or append
a new one. -/
def mapSet {α β : Type} [DecidableEq α] : List (α × β) → α → β → List (α × β)
  | [], k, v => [(k, v)]
  | (k0, v0) :: rest, k, v =>
    if k0 = k then (k, v) :: rest else (k0, v0) :: mapSet rest k v

/-- Dict deletion `del m[k]`: remove the first binding of `k`. -/
def mapDel {α β : Type} [DecidableEq α] : List (α × β) → α → List (α × β)
  | [], _ => []
  | (k0, v0) :: rest, k => if k0 = k then rest else (k0, v0) :: mapDel rest k

/-- Set insertion `s.add(x)` on a duplicate-free list. -/
def setAdd {α : Type} [DecidableEq α] (s : List α) (x : α) : List α :=
  if x ∈ s then s else s ++ [x]

/-- The `joined` acknowledgment `{'type': 'joined', 'room': room_id}`
(lines 211-214). -/
def joinedMsg (roomId : JVal) : JVal :=
  .objCons "type" (.jstr "joined") (.objCons "room" roomId .objNil)

/-- Registration of a fresh connection after the handshake
(lines 147-154): store a record with an empty room set. -/
def register_client (st : ServerState) (ws : ConnId) : ServerState :=
  { st with clients := mapSet st.clients ws ⟨[]⟩ }

/-- `broadcast_to_room` (lines 237-251), sequential effect: the list of
attempted deliveries.  A missing room returns immediately; otherwise
every member other than `exclude` that is still in the client registry
gets a delivery attempt (each send is guarded by its own try/except, so
one failure skips no one else).  The value written on the wire is
`build(json.dumps(data))`; the delivery is recorded as the JSON value
itself.  The registries are not mutated. -/
def broadcast_to_room (st : ServerState) (roomId : JVal) (data : JVal)
    (exclude : ConnId) : List (ConnId × JVal) :=
  match mapGet st.rooms roomId with
  | none => []
  | some members =>
    (members.filter fun w => w != exclude && (mapGet st.clients w).isSome).map
      fun w => (w, data)

/-- `handle_message` (lines 195-225).  `decoded` is the outcome of
`json.loads(message)`, with `none` modelling `json.JSONDecodeError` (the
message is dropped).  Returns the updated state and the attempted
deliveries `(recipient, JSON value)`. -/
def handle_message (st : ServerState) (ws : ConnId) (decoded : Option JVal) :
    ServerState × List (ConnId × JVal) :=
  match decoded with
  | none => (st, [])
  | some data =>
    let msgType := jget data "type"
    if msgType = some (.jstr "join") then
      let roomId := (jget data "room").getD (.jstr "default")
      if jhashable roomId then
        let members := (mapGet st.rooms roomId).getD []
        let rooms2 := mapSet st.rooms roomId (setAdd members ws)
        match mapGet st.clients ws with
        | some info =>
          ({ clients := mapSet st.clients ws ⟨setAdd info.rooms roomId⟩, rooms := rooms2 },
            [(ws, joinedMsg roomId)])
        | none => ({ st with rooms := rooms2 }, [])
      else (st, [])
    else if msgType ∈ [some (JVal.jstr "presence"), some (.jstr "offer"),
        some (.jstr "answer"), some (.jstr "ice-candidate")] then
      let roomId := (jget data "room").getD (.jstr "default")
      if jhashable roomId then
        (st, broadcast_to_room st roomId data ws)
      else (st, [])
    else (st, [])

/-- One iteration of the room-cleanup loop of `close_connection`
(lines 261-265): discard `ws` from the room's member set and delete the
room if it became empty. -/
def closeRoomStep (ws : ConnId) (rs : List (JVal × List ConnId)) (roomId : JVal) :
    List (JVal × List ConnId) :=
  match mapGet rs roomId with
  | none => rs
  | some members =>
    let members2 := members.erase ws
    if members2 = [] then mapDel rs roomId else mapSet rs roomId members2

/-- `close_connection` (lines 253-276): a no-op for a connection absent
from the client registry; otherwise remove the connection from every
room in its record (deleting rooms that become empty) and delete its
client record.  The socket close itself touches no registry. -/
def close_connection (st : ServerState) (ws : ConnId) : ServerState :=
  match mapGet st.clients ws with
  | none => st
  | some info =>
    { clients := mapDel st.clients ws,
      rooms := info.rooms.foldl (closeRoomStep ws) st.rooms }

/-- The empty registries (server construction, lines 101-102). -/
def initState : ServerState := ⟨[], []⟩

/-- One server-level operation: registration of a connection, handling
of one decoded text message (join / broadcast / dropped message), or
connection teardown. -/
inductive ServerOp : ServerState → ServerState → Prop where
  | register (st : ServerState) (ws : ConnId) : ServerOp st (register_client st ws)
  | message (st : ServerState) (ws : ConnId) (decoded : Option JVal) :
      ServerOp st (handle_message st ws decoded).1
  | close (st : ServerState) (ws : ConnId) : ServerOp st (close_connection st ws)

/-- States reachable from the empty registries by server operations. -/
def Reachable (st : ServerState) : Prop :=
  Relation.ReflTransGen ServerOp initState st

/-- Duplicate-freedom, as a boolean. -/
def nodupB {α : Type} [DecidableEq α] : List α → Bool
  | [] => true
  | x :: xs => !xs.contains x && nodupB xs

/-- C8's invariant, as an executable check: every room in a registered
connection's room set exists in the room registry and lists that
connection as a member. -/
def clientRoomsConsistent (st : ServerState) : Bool :=
  st.clients.all fun p =>
    p.2.rooms.all fun r =>
      match mapGet st.rooms r with
      | some members => members.contains p.1
      | none => false

/-- The dict/set shape of every state the Python server can actually be
in: duplicate-free registry keys, hashable room keys, duplicate-free and
non-empty member sets, duplicate-free room sets, and every room member
registered with that room in its record. -/
def goodServer (st : ServerState) : Bool :=
  nodupB (st.clients.map Prod.fst) && nodupB (st.rooms.map Prod.fst) &&
  (st.rooms.all fun p =>
    jhashable p.1 && nodupB p.2 && !p.2.isEmpty &&
    (p.2.all fun w =>
      match mapGet st.clients w with
      | some info => info.rooms.contains p.1
      | none => false)) &&
  (st.clients.all fun p => nodupB p.2.rooms)

/-! ### Association-list and set lemmas -/

theorem mapGet_mapSet_self {α β : Type} [DecidableEq α] (m : List (α × β)) (k : α) (v : β) :
    mapGet (mapSet m k v) k = some v := by
  induction m with
  | nil => simp [mapSet, mapGet]
  | cons p rest ih =>
    obtain ⟨k0, v0⟩ := p
    by_cases h : k0 = k
    · simp [mapSet, h, mapGet]
    · simp [mapSet, h, mapGet, ih]

theorem mapGet_mapSet_ne {α β : Type} [DecidableEq α] (m : List (α × β)) (k k' : α) (v : β)
    (h : k' ≠ k) : mapGet (mapSet m k v) k' = mapGet m k' := by
  have h2 : k ≠ k' := Ne.symm h
  induction m with
  | nil => simp [mapSet, mapGet, h2]
  | cons p rest ih =>
    obtain ⟨k0, v0⟩ := p
    by_cases hk : k0 = k
    · subst hk
      simp [mapSet, mapGet, h2]
    · simp [mapSet, hk, mapGet, ih]

theorem mapGet_mapDel_ne {α β : Type} [DecidableEq α] (m : List (α × β)) (k k' : α)
    (h : k' ≠ k) : mapGet (mapDel m k) k' = mapGet m k' := by
  induction m with
  | nil => simp [mapDel, mapGet]
  | cons p rest ih =>
    obtain ⟨k0, v0⟩ := p
    by_cases hk : k0 = k
    · subst hk
      have hne : k0 ≠ k' := fun hh => h hh.symm
      simp [mapDel, mapGet, hne]
    · simp [mapDel, hk, mapGet, ih]

theorem mapDel_map_fst {α β : Type} [DecidableEq α] (m : List (α × β)) (k : α) :
    (mapDel m k).map Prod.fst = (m.map Prod.fst).erase k := by
  induction m with
  | nil => simp [mapDel]
  | cons p rest ih =>
    obtain ⟨k0, v0⟩ := p
    by_cases hk : k0 = k
    · subst hk
      simp [mapDel, List.erase_cons]
    · simp [mapDel, hk, List.erase_cons, ih]

theorem mapGet_mapDel_self {α β : Type} [DecidableEq α] (m : List (α × β)) (k : α)
    (h : (m.map Prod.fst).Nodup) : mapGet (mapDel m k) k = none := by
  induction m with
  | nil => simp [mapDel, mapGet]
  | cons p rest ih =>
    obtain ⟨k0, v0⟩ := p
    simp only [List.map_cons, List.nodup_cons] at h
    by_cases hk : k0 = k
    · subst hk
      rw [mapDel, if_pos rfl]
      -- k0 not among rest's keys, so lookup fails
      clear ih
      induction rest with
      | nil => simp [mapGet]
      | cons q qs ihq =>
        obtain ⟨k1, v1⟩ := q
        simp only [List.map_cons, List.mem_cons, not_or, List.nodup_cons] at h
        rw [mapGet, if_neg (fun hh => h.1.1 hh.symm)]
        exact ihq ⟨fun hm => h.1.2 hm, h.2.2⟩
    · rw [mapDel, if_neg hk, mapGet, if_neg hk]
      exact ih h.2

theorem mem_of_mapGet_some {α β : Type} [DecidableEq α] {m : List (α × β)} {k : α} {v : β}
    (h : mapGet m k = some v) : (k, v) ∈ m := by
  induction m with
  | nil => simp [mapGet] at h
  | cons p rest ih =>
    obtain ⟨k0, v0⟩ := p
    by_cases hk : k0 = k
    · subst hk
      rw [mapGet, if_pos rfl, Option.some.injEq] at h
      subst h
      exact List.mem_cons_self _ _
    · rw [mapGet, if_neg hk] at h
      exact List.mem_cons_of_mem _ (ih h)

theorem mapGet_of_mem_nodup {α β : Type} [DecidableEq α] {m : List (α × β)} {k : α} {v : β}
    (hmem : (k, v) ∈ m) (h : (m.map Prod.fst).Nodup) : mapGet m k = some v := by
  induction m with
  | nil => simp at hmem
  | cons p rest ih =>
    obtain ⟨k0, v0⟩ := p
    simp only [List.map_cons, List.nodup_cons] at h
    rcases List.mem_cons.mp hmem with heq | hmem2
    · rw [Prod.mk.injEq] at heq
      obtain ⟨h1, h2⟩ := heq
      subst h1; subst h2
      rw [mapGet, if_pos rfl]
    · have hne : k0 ≠ k := by
        intro hh
        subst hh
        exact h.1 (List.mem_map.mpr ⟨(k0, v), hmem2, rfl⟩)
      rw [mapGet, if_neg hne]
      exact ih hmem2 h.2

theorem mapGet_isSome_of_mem_fst {α β : Type} [DecidableEq α] {m : List (α × β)} {k : α}
    (hmem : k ∈ m.map Prod.fst) : (mapGet m k).isSome := by
  induction m with
  | nil => simp at hmem
  | cons p rest ih =>
    obtain ⟨k0, v0⟩ := p
    by_cases hk : k0 = k
    · rw [mapGet, if_pos hk]; rfl
    · rw [mapGet, if_neg hk]
      rcases List.mem_cons.mp hmem with heq | hmem2
      · exact absurd heq.symm hk
      · exact ih hmem2

theorem mapSet_map_fst_of_mem {α β : Type} [DecidableEq α] (m : List (α × β)) (k : α) (v : β)
    (h : k ∈ m.map Prod.fst) : (mapSet m k v).map Prod.fst = m.map Prod.fst := by
  induction m with
  | nil => simp at h
  | cons p rest ih =>
    obtain ⟨k0, v0⟩ := p
    by_cases hk : k0 = k
    · subst hk
      simp [mapSet]
    · rcases List.mem_cons.mp h with heq | hmem2
      · exact absurd heq.symm hk
      · simp [mapSet, hk, ih hmem2]

theorem mapSet_map_fst_of_not_mem {α β : Type} [DecidableEq α] (m : List (α × β)) (k : α)
    (v : β) (h : k ∉ m.map Prod.fst) :
    (mapSet m k v).map Prod.fst = m.map Prod.fst ++ [k] := by
  induction m with
  | nil => simp [mapSet]
  | cons p rest ih =>
    obtain ⟨k0, v0⟩ := p
    simp only [List.map_cons, List.mem_cons, not_or] at h
    rw [mapSet, if_neg (fun hh => h.1 hh.symm)]
    simp only [List.map_cons, List.cons_append, List.cons.injEq, true_and]
    exact ih h.2

theorem mapSet_nodup_fst {α β : Type} [DecidableEq α] (m : List (α × β)) (k : α) (v : β)
    (h : (m.map Prod.fst).Nodup) : ((mapSet m k v).map Prod.fst).Nodup := by
  by_cases hk : k ∈ m.map Prod.fst
  · rw [mapSet_map_fst_of_mem m k v hk]; exact h
  · rw [mapSet_map_fst_of_not_mem m k v hk]
    rw [List.nodup_append]
    refine ⟨h, List.nodup_singleton k, ?_⟩
    intro a ha hb
    rw [List.mem_singleton] at hb
    subst hb
    exact hk ha

theorem mapDel_nodup_fst {α β : Type} [DecidableEq α] (m : List (α × β)) (k : α)
    (h : (m.map Prod.fst).Nodup) : ((mapDel m k).map Prod.fst).Nodup := by
  rw [mapDel_map_fst]
  exact h.erase k

theorem mem_setAdd {α : Type} [DecidableEq α] (s : List α) (x y : α) :
    y ∈ setAdd s x ↔ y ∈ s ∨ y = x := by
  unfold setAdd
  by_cases h : x ∈ s
  · simp only [if_pos h]
    constructor
    · exact Or.inl
    · rintro (hy | rfl)
      · exact hy
      · exact h
  · simp [if_neg h, List.mem_append]

theorem setAdd_of_mem {α : Type} [DecidableEq α] {s : List α} {x : α} (h : x ∈ s) :
    setAdd s x = s := by
  unfold setAdd
  rw [if_pos h]

theorem setAdd_nodup {α : Type} [DecidableEq α] (s : List α) (x : α) (h : s.Nodup) :
    (setAdd s x).Nodup := by
  unfold setAdd
  by_cases hx : x ∈ s
  · rw [if_pos hx]; exact h
  · rw [if_neg hx]
    rw [List.nodup_append]
    refine ⟨h, List.nodup_singleton x, ?_⟩
    intro a ha hb
    rw [List.mem_singleton] at hb
    subst hb
    exact hx ha

theorem mem_setAdd_self {α : Type} [DecidableEq α] (s : List α) (x : α) : x ∈ setAdd s x := by
  rw [mem_setAdd]
  exact Or.inr rfl

theorem setAdd_ne_nil {α : Type} [DecidableEq α] (s : List α) (x : α) : setAdd s x ≠ [] := by
  intro h
  have := mem_setAdd_self s x
  rw [h] at this
  simp at this

theorem nodupB_iff {α : Type} [DecidableEq α] (l : List α) : nodupB l = true ↔ l.Nodup := by
  induction l with
  | nil => simp [nodupB]
  | cons x xs ih =>
    simp [nodupB, ih, List.nodup_cons]

/-! ### The room-cleanup fold of `close_connection` -/

theorem closeRoomStep_map_fst_nodup (ws : ConnId) (rs : List (JVal × List ConnId))
    (roomId : JVal) (h : (rs.map Prod.fst).Nodup) :
    ((closeRoomStep ws rs roomId).map Prod.fst).Nodup := by
  unfold closeRoomStep
  cases hq : mapGet rs roomId with
  | none => exact h
  | some members =>
    simp only []
    by_cases he : members.erase ws = []
    · rw [if_pos he]
      exact mapDel_nodup_fst rs roomId h
    · rw [if_neg he]
      exact mapSet_nodup_fst rs roomId _ h

theorem closeRoomStep_mapGet_ne (ws : ConnId) (rs : List (JVal × List ConnId))
    (roomId r : JVal) (hne : r ≠ roomId) :
    mapGet (closeRoomStep ws rs roomId) r = mapGet rs r := by
  unfold closeRoomStep
  cases hq : mapGet rs roomId with
  | none => rfl
  | some members =>
    simp only []
    by_cases he : members.erase ws = []
    · rw [if_pos he]
      exact mapGet_mapDel_ne rs roomId r hne
    · rw [if_neg he]
      exact mapGet_mapSet_ne rs roomId r _ hne

theorem closeRoomStep_mapGet_self (ws : ConnId) (rs : List (JVal × List ConnId))
    (roomId : JVal) (h : (rs.map Prod.fst).Nodup) :
    mapGet (closeRoomStep ws rs roomId) roomId =
      match mapGet rs roomId with
      | none => none
      | some ms => if ms.erase ws = [] then none else some (ms.erase ws) := by
  unfold closeRoomStep
  cases hq : mapGet rs roomId with
  | none => rw [hq]
  | some members =>
    simp only []
    by_cases he : members.erase ws = []
    · rw [if_pos he, if_pos he]
      exact mapGet_mapDel_self rs roomId h
    · rw [if_neg he, if_neg he]
      exact mapGet_mapSet_self rs roomId _

theorem closeFold_map_fst_nodup (ws : ConnId) (R : List JVal) :
    ∀ rs : List (JVal × List ConnId), (rs.map Prod.fst).Nodup →
      ((R.foldl (closeRoomStep ws) rs).map Prod.fst).Nodup := by
  induction R with
  | nil => intro rs h; exact h
  | cons r0 R ih =>
    intro rs h
    rw [List.foldl_cons]
    exact ih _ (closeRoomStep_map_fst_nodup ws rs r0 h)

theorem closeFold_mapGet (ws : ConnId) (R : List JVal) :
    ∀ rs : List (JVal × List ConnId), R.Nodup → (rs.map Prod.fst).Nodup → ∀ r : JVal,
      mapGet (R.foldl (closeRoomStep ws) rs) r =
        if r ∈ R then
          match mapGet rs r with
          | none => none
          | some ms => if ms.erase ws = [] then none else some (ms.erase ws)
        else mapGet rs r := by
  induction R with
  | nil =>
    intro rs _ _ r
    simp
  | cons r0 R ih =>
    intro rs hR hrs r
    rw [List.nodup_cons] at hR
    rw [List.foldl_cons]
    rw [ih _ hR.2 (closeRoomStep_map_fst_nodup ws rs r0 hrs) r]
    by_cases hrR : r ∈ R
    · have hne : r ≠ r0 := fun hh => hR.1 (hh ▸ hrR)
      rw [if_pos hrR, if_pos (List.mem_cons_of_mem _ hrR),
        closeRoomStep_mapGet_ne ws rs r0 r hne]
    · by_cases hr0 : r = r0
      · subst hr0
        rw [if_neg hrR, if_pos (List.mem_cons_self _ _),
          closeRoomStep_mapGet_self ws rs r hrs]
      · rw [if_neg hrR, if_neg (by simp [hr0, hrR]),
          closeRoomStep_mapGet_ne ws rs r0 r hr0]

/-! ### Shapes of the states produced by the operations -/

theorem handle_message_cases (st : ServerState) (ws : ConnId) (decoded : Option JVal) :
    (handle_message st ws decoded).1 = st ∨
    (∃ roomId info, mapGet st.clients ws = some info ∧
      (handle_message st ws decoded).1 =
        { clients := mapSet st.clients ws ⟨setAdd info.rooms roomId⟩,
          rooms := mapSet st.rooms roomId (setAdd ((mapGet st.rooms roomId).getD []) ws) }) ∨
    (∃ roomId, mapGet st.clients ws = none ∧
      (handle_message st ws decoded).1 =
        { st with
          rooms := mapSet st.rooms roomId (setAdd ((mapGet st.rooms roomId).getD []) ws) }) := by
  cases decoded with
  | none => exact Or.inl rfl
  | some data =>
    unfold handle_message
    simp only []
    by_cases hjoin : jget data "type" = some (.jstr "join")
    · rw [if_pos hjoin]
      by_cases hhash : jhashable ((jget data "room").getD (.jstr "default"))
      · rw [if_pos hhash]
        cases hcl : mapGet st.clients ws with
        | none =>
          refine Or.inr (Or.inr ⟨(jget data "room").getD (.jstr "default"), rfl, rfl⟩)
        | some info =>
          exact Or.inr (Or.inl ⟨(jget data "room").getD (.jstr "default"), info, rfl, rfl⟩)
      · rw [if_neg hhash]
        exact Or.inl rfl
    · rw [if_neg hjoin]
      by_cases hbc : jget data "type" ∈ [some (JVal.jstr "presence"), some (.jstr "offer"),
          some (.jstr "answer"), some (.jstr "ice-candidate")]
      · rw [if_pos hbc]
        by_cases hhash : jhashable ((jget data "room").getD (.jstr "default"))
        · rw [if_pos hhash]
          exact Or.inl rfl
        · rw [if_neg hhash]
          exact Or.inl rfl
      · rw [if_neg hbc]
        exact Or.inl rfl

/-! ### The registry-consistency invariant (C8) -/

/-- Induction invariant: duplicate-free registry keys, duplicate-free
per-client room sets, and the consistency direction claimed by the spec:
every room of a registered client exists and lists the client. -/
def InvProp (st : ServerState) : Prop :=
  (st.clients.map Prod.fst).Nodup ∧ (st.rooms.map Prod.fst).Nodup ∧
  (∀ w info, mapGet st.clients w = some info → info.rooms.Nodup) ∧
  (∀ w info, mapGet st.clients w = some info →
    ∀ r ∈ info.rooms, ∃ ms, mapGet st.rooms r = some ms ∧ w ∈ ms)

theorem invProp_register (st : ServerState) (ws : ConnId) (ih : InvProp st) :
    InvProp (register_client st ws) := by
  obtain ⟨hck, hrk, hnd, hcr⟩ := ih
  refine ⟨mapSet_nodup_fst _ _ _ hck, hrk, ?_, ?_⟩
  · intro w info hw
    by_cases hws : w = ws
    · subst hws
      rw [register_client] at hw
      simp only [] at hw
      rw [mapGet_mapSet_self] at hw
      cases hw
      simp
    · rw [register_client] at hw
      simp only [] at hw
      rw [mapGet_mapSet_ne _ _ _ _ hws] at hw
      exact hnd w info hw
  · intro w info hw r hr
    by_cases hws : w = ws
    · subst hws
      rw [register_client] at hw
      simp only [] at hw
      rw [mapGet_mapSet_self] at hw
      cases hw
      simp at hr
    · rw [register_client] at hw
      simp only [] at hw
      rw [mapGet_mapSet_ne _ _ _ _ hws] at hw
      exact hcr w info hw r hr

theorem invProp_rooms_update (st : ServerState) (ws : ConnId) (roomId : JVal)
    (ih : InvProp st) (w : ConnId) (info : ClientInfo)
    (hw : mapGet st.clients w = some info) (r : JVal) (hr : r ∈ info.rooms) :
    ∃ ms, mapGet (mapSet st.rooms roomId (setAdd ((mapGet st.rooms roomId).getD []) ws)) r =
      some ms ∧ w ∈ ms := by
  obtain ⟨hck, hrk, hnd, hcr⟩ := ih
  obtain ⟨ms, hms, hwm⟩ := hcr w info hw r hr
  by_cases hrid : r = roomId
  · subst hrid
    refine ⟨setAdd ((mapGet st.rooms r).getD []) ws, mapGet_mapSet_self _ _ _, ?_⟩
    rw [hms]
    exact (mem_setAdd _ _ _).mpr (Or.inl hwm)
  · exact ⟨ms, by rw [mapGet_mapSet_ne _ _ _ _ hrid]; exact hms, hwm⟩

theorem invProp_message (st : ServerState) (ws : ConnId) (decoded : Option JVal)
    (ih : InvProp st) : InvProp (handle_message st ws decoded).1 := by
  rcases handle_message_cases st ws decoded with hsame | ⟨roomId, info, hcl, heq⟩ |
    ⟨roomId, hcl, heq⟩
  · rw [hsame]; exact ih
  · rw [heq]
    obtain ⟨hck, hrk, hnd, hcr⟩ := ih
    refine ⟨mapSet_nodup_fst _ _ _ hck, mapSet_nodup_fst _ _ _ hrk, ?_, ?_⟩
    · intro w info2 hw
      by_cases hws : w = ws
      · subst hws
        rw [mapGet_mapSet_self] at hw
        cases hw
        exact setAdd_nodup _ _ (hnd _ info hcl)
      · rw [mapGet_mapSet_ne _ _ _ _ hws] at hw
        exact hnd w info2 hw
    · intro w info2 hw r hr
      by_cases hws : w = ws
      · subst hws
        rw [mapGet_mapSet_self] at hw
        cases hw
        simp only [] at hr
        rcases (mem_setAdd _ _ _).mp hr with hold | hnew
        · exact invProp_rooms_update st _ roomId ⟨hck, hrk, hnd, hcr⟩ _ info hcl r hold
        · subst hnew
          exact ⟨setAdd ((mapGet st.rooms r).getD []) _, mapGet_mapSet_self _ _ _,
            mem_setAdd_self _ _⟩
      · rw [mapGet_mapSet_ne _ _ _ _ hws] at hw
        exact invProp_rooms_update st _ roomId ⟨hck, hrk, hnd, hcr⟩ w info2 hw r hr
  · rw [heq]
    obtain ⟨hck, hrk, hnd, hcr⟩ := ih
    exact ⟨hck, mapSet_nodup_fst _ _ _ hrk, hnd,
      fun w info2 hw r hr =>
        invProp_rooms_update st ws roomId ⟨hck, hrk, hnd, hcr⟩ w info2 hw r hr⟩

theorem invProp_close (st : ServerState) (ws : ConnId) (ih : InvProp st) :
    InvProp (close_connection st ws) := by
  obtain ⟨hck, hrk, hnd, hcr⟩ := ih
  unfold close_connection
  cases hcl : mapGet st.clients ws with
  | none => exact ⟨hck, hrk, hnd, hcr⟩
  | some info =>
    simp only []
    have hRnd : info.rooms.Nodup := hnd ws info hcl
    refine ⟨mapDel_nodup_fst _ _ hck, closeFold_map_fst_nodup ws _ _ hrk, ?_, ?_⟩
    · intro w info2 hw
      by_cases hws : w = ws
      · subst hws
        rw [mapGet_mapDel_self _ _ hck] at hw
        cases hw
      · rw [mapGet_mapDel_ne _ _ _ hws] at hw
        exact hnd w info2 hw
    · intro w info2 hw r hr
      by_cases hws : w = ws
      · subst hws
        rw [mapGet_mapDel_self _ _ hck] at hw
        cases hw
      · rw [mapGet_mapDel_ne _ _ _ hws] at hw
        obtain ⟨ms, hms, hwm⟩ := hcr w info2 hw r hr
        rw [closeFold_mapGet ws info.rooms st.rooms hRnd hrk r]
        by_cases hrR : r ∈ info.rooms
        · have hwm2 : w ∈ ms.erase ws := List.mem_erase_of_ne hws |>.mpr hwm
          have hne2 : ms.erase ws ≠ [] := by
            intro hh
            rw [hh] at hwm2
            simp at hwm2
          refine ⟨ms.erase ws, ?_, hwm2⟩
          rw [if_pos hrR, hms]
          simp [hne2]
        · rw [if_neg hrR]
          exact ⟨ms, hms, hwm⟩

theorem reachable_invProp (st : ServerState) (h : Reachable st) : InvProp st := by
  induction h with
  | refl =>
    refine ⟨by simp [initState], by simp [initState], ?_, ?_⟩
    · intro w info hw
      simp [initState, mapGet] at hw
    · intro w info hw
      simp [initState, mapGet] at hw
  | tail hab hbc ih =>
    cases hbc with
    | register ws => exact invProp_register _ ws ih
    | message ws decoded => exact invProp_message _ ws decoded ih
    | close ws => exact invProp_close _ ws ih

/-- C8: in every state reachable from the empty registries by any
sequence of server operations (registration, message handling — join and
broadcast included — and teardown), every registered connection's room
set is a subset of the room registry's view: each such room exists in
the registry and lists the connection as a member. -/
theorem reachable_clientRoomsConsistent (st : ServerState) (h : Reachable st) :
    clientRoomsConsistent st = true := by
  obtain ⟨hck, hrk, hnd, hcr⟩ := reachable_invProp st h
  unfold clientRoomsConsistent
  rw [List.all_eq_true]
  intro p hp
  rw [List.all_eq_true]
  intro r hr
  have hpmem : (p.1, p.2) ∈ st.clients := by simpa using hp
  have hone := mapGet_of_mem_nodup hpmem hck
  obtain ⟨ms, hms, hwm⟩ := hcr p.1 p.2 hone r hr
  rw [hms]
  simpa using hwm

/-- Witness for C8: the state reached by registering connection 1 and
joining it to room `a`. -/
theorem reachable_clientRoomsConsistent_witness :
    clientRoomsConsistent
      ((handle_message (register_client initState 1) 1
        (some (.objCons "type" (.jstr "join") (.objCons "room" (.jstr "a") .objNil)))).1) =
      true :=
  reachable_clientRoomsConsistent _
    (Relation.ReflTransGen.tail
      (Relation.ReflTransGen.tail Relation.ReflTransGen.refl
        (ServerOp.register initState 1))
      (ServerOp.message (register_client initState 1) 1
        (some (.objCons "type" (.jstr "join") (.objCons "room" (.jstr "a") .objNil)))))

/-! ### Teardown cleanup (C7) -/

theorem goodServer_spec (st : ServerState) (h : goodServer st = true) :
    (st.clients.map Prod.fst).Nodup ∧ (st.rooms.map Prod.fst).Nodup ∧
    (∀ r ms, mapGet st.rooms r = some ms →
      jhashable r = true ∧ ms.Nodup ∧ ms ≠ [] ∧
      ∀ w ∈ ms, ∃ info, mapGet st.clients w = some info ∧ r ∈ info.rooms) ∧
    (∀ w info, mapGet st.clients w = some info → info.rooms.Nodup) := by
  unfold goodServer at h
  simp only [Bool.and_eq_true, List.all_eq_true, nodupB_iff] at h
  obtain ⟨⟨⟨hck, hrk⟩, hrooms⟩, hclients⟩ := h
  refine ⟨hck, hrk, ?_, ?_⟩
  · intro r ms hms
    have hmem := mem_of_mapGet_some hms
    have hq := hrooms (r, ms) hmem
    simp only [Bool.and_eq_true, nodupB_iff, Bool.not_eq_true'] at hq
    obtain ⟨⟨⟨hh, hnd⟩, hne⟩, hall⟩ := hq
    refine ⟨hh, hnd, ?_, ?_⟩
    · intro hnil
      rw [hnil] at hne
      simp at hne
    · intro w hw
      have hq2 := hall w hw
      cases hcw : mapGet st.clients w with
      | none => rw [hcw] at hq2; simp at hq2
      | some info =>
        rw [hcw] at hq2
        refine ⟨info, rfl, ?_⟩
        simpa using hq2
  · intro w info hinfo
    have hq := hclients (w, info) (mem_of_mapGet_some hinfo)
    simpa [nodupB_iff] using hq

theorem mem_of_erase_eq_nil {ms : List ConnId} {ws : ConnId} (hne : ms ≠ [])
    (he : ms.erase ws = []) : ws ∈ ms := by
  obtain ⟨w, hw⟩ := List.exists_mem_of_ne_nil ms hne
  by_cases hwws : w = ws
  · subst hwws
    exact hw
  · exfalso
    have hmem : w ∈ ms.erase ws := (List.mem_erase_of_ne hwws).mpr hw
    rw [he] at hmem
    simp at hmem

theorem close_gone_clients (st : ServerState) (ws : ConnId)
    (hck : (st.clients.map Prod.fst).Nodup) :
    mapGet (close_connection st ws).clients ws = none := by
  unfold close_connection
  cases hcl : mapGet st.clients ws with
  | none => exact hcl
  | some info =>
    simp only []
    exact mapGet_mapDel_self _ _ hck

theorem close_gone_rooms (st : ServerState) (ws : ConnId)
    (hgood : goodServer st = true) :
    ∀ r ms, mapGet (close_connection st ws).rooms r = some ms → ws ∉ ms := by
  obtain ⟨hck, hrk, hrooms, hclients⟩ := goodServer_spec st hgood
  intro r ms hms hwm
  cases hcl : mapGet st.clients ws with
  | none =>
    unfold close_connection at hms
    rw [hcl] at hms
    obtain ⟨info, hinfo, _⟩ := (hrooms r ms hms).2.2.2 ws hwm
    rw [hcl] at hinfo
    cases hinfo
  | some info =>
    unfold close_connection at hms
    rw [hcl] at hms
    simp only [] at hms
    rw [closeFold_mapGet ws info.rooms st.rooms (hclients ws info hcl) hrk r] at hms
    by_cases hrR : r ∈ info.rooms
    · rw [if_pos hrR] at hms
      cases hq : mapGet st.rooms r with
      | none => rw [hq] at hms; simp at hms
      | some ms0 =>
        rw [hq] at hms
        simp only [] at hms
        by_cases he : ms0.erase ws = []
        · rw [if_pos he] at hms; cases hms
        · rw [if_neg he, Option.some.injEq] at hms
          subst hms
          have hnd0 : ms0.Nodup := (hrooms r ms0 hq).2.1
          exact (hnd0.mem_erase_iff.mp hwm).1 rfl
    · rw [if_neg hrR] at hms
      obtain ⟨info2, hinfo2, hrin⟩ := (hrooms r ms hms).2.2.2 ws hwm
      rw [hcl] at hinfo2
      cases hinfo2
      exact hrR hrin

theorem handle_message_join_rooms (st : ServerState) (ws : ConnId) (data : JVal)
    (hjoin : jget data "type" = some (.jstr "join"))
    (hhash : jhashable ((jget data "room").getD (.jstr "default")) = true) :
    (handle_message st ws (some data)).1.rooms =
      mapSet st.rooms ((jget data "room").getD (.jstr "default"))
        (setAdd ((mapGet st.rooms ((jget data "room").getD (.jstr "default"))).getD []) ws) := by
  unfold handle_message
  simp only []
  rw [if_pos hjoin, if_pos hhash]
  cases hcl : mapGet st.clients ws <;> rfl

/-- C7: teardown cleanup in a well-formed state.  After
`close_connection st ws`: the connection is in no room's member set and
absent from the client registry, and every room whose membership became
empty was deleted from the room registry; a broadcast naming a room
without a registry entry is a silent no-op with no deliveries; closing a
connection absent from the client registry changes no state; and a join
by a connection that is already a member leaves the room's membership
the same single entry. -/
theorem close_connection_cleanup (st : ServerState) (ws : ConnId)
    (hgood : goodServer st = true) :
    (∀ r ms, mapGet (close_connection st ws).rooms r = some ms → ws ∉ ms) ∧
    mapGet (close_connection st ws).clients ws = none ∧
    (∀ r ms, mapGet st.rooms r = some ms → ms.erase ws = [] →
      mapGet (close_connection st ws).rooms r = none) ∧
    (∀ st2 : ServerState, ∀ r data ex, mapGet st2.rooms r = none →
      broadcast_to_room st2 r data ex = []) ∧
    (mapGet st.clients ws = none → close_connection st ws = st) ∧
    (∀ data ms, jget data "type" = some (.jstr "join") →
      mapGet st.rooms ((jget data "room").getD (.jstr "default")) = some ms → ws ∈ ms →
      mapGet (handle_message st ws (some data)).1.rooms
          ((jget data "room").getD (.jstr "default")) = some ms ∧
        ms.count ws = 1) := by
  obtain ⟨hck, hrk, hrooms, hclients⟩ := goodServer_spec st hgood
  have hbc : ∀ st2 : ServerState, ∀ r data ex, mapGet st2.rooms r = none →
      broadcast_to_room st2 r data ex = [] := by
    intro st2 r data ex hnone
    unfold broadcast_to_room
    rw [hnone]
  have hnoop : mapGet st.clients ws = none → close_connection st ws = st := by
    intro hcl
    unfold close_connection
    rw [hcl]
  refine ⟨close_gone_rooms st ws hgood, close_gone_clients st ws hck, ?_, hbc, hnoop, ?_⟩
  · -- rooms that became empty are deleted
    intro r ms hms he
    obtain ⟨_, hnd0, hne0, hreg⟩ := hrooms r ms hms
    have hwm : ws ∈ ms := mem_of_erase_eq_nil hne0 he
    obtain ⟨info, hinfo, hrin⟩ := hreg ws hwm
    unfold close_connection
    rw [hinfo]
    simp only []
    rw [closeFold_mapGet ws info.rooms st.rooms (hclients ws info hinfo) hrk r,
      if_pos hrin, hms]
    simp [he]
  · -- repeated join leaves the membership one unchanged entry
    intro data ms hjoin hms hwm
    have hhash : jhashable ((jget data "room").getD (.jstr "default")) = true :=
      (hrooms _ ms hms).1
    rw [handle_message_join_rooms st ws data hjoin hhash, hms]
    have hadd : setAdd ms ws = ms := setAdd_of_mem hwm
    constructor
    · simp only [Option.getD_some, hadd]
      exact mapGet_mapSet_self _ _ _
    · exact List.count_eq_one_of_mem (hrooms _ ms hms).2.1 hwm

/-- Witness for C7 at a concrete two-member room. -/
theorem close_connection_cleanup_witness :
    goodServer ⟨[(1, ⟨[.jstr "a"]⟩), (2, ⟨[.jstr "a"]⟩)], [(.jstr "a", [1, 2])]⟩ = true ∧
      mapGet (close_connection
        ⟨[(1, ⟨[.jstr "a"]⟩), (2, ⟨[.jstr "a"]⟩)], [(.jstr "a", [1, 2])]⟩ 1).clients 1 =
        none :=
  ⟨by decide, (close_connection_cleanup _ 1 (by decide)).2.1⟩

/-! ### Message relay (C6) and silent drops (C9) -/

/-- C6: a `presence` / `offer` / `answer` / `ice-candidate` message from
a sender, in a well-formed state: the registries never change; if the
stated room (defaulting to `"default"`) has a registry entry, the
re-serialized message is delivered to every current member of that room
except the sender and to no other connection; if it has none, nothing at
all is delivered (silent drop). -/
theorem relay_broadcast (st : ServerState) (ws : ConnId) (data : JVal) (t : String)
    (hgood : goodServer st = true)
    (ht : jget data "type" = some (.jstr t))
    (htypes : t = "presence" ∨ t = "offer" ∨ t = "answer" ∨ t = "ice-candidate") :
    (handle_message st ws (some data)).1 = st ∧
    (∀ ms, mapGet st.rooms ((jget data "room").getD (.jstr "default")) = some ms →
      (handle_message st ws (some data)).2 =
        (ms.filter fun w => w != ws).map fun w => (w, data)) ∧
    (mapGet st.rooms ((jget data "room").getD (.jstr "default")) = none →
      (handle_message st ws (some data)).2 = []) := by
  obtain ⟨hck, hrk, hrooms, hclients⟩ := goodServer_spec st hgood
  have hne_join : jget data "type" ≠ some (.jstr "join") := by
    rw [ht]
    rcases htypes with h | h | h | h <;> subst h <;> simp
  have hmem4 : jget data "type" ∈ [some (JVal.jstr "presence"), some (.jstr "offer"),
      some (.jstr "answer"), some (.jstr "ice-candidate")] := by
    rw [ht]
    rcases htypes with h | h | h | h <;> subst h <;> simp
  unfold handle_message
  simp only []
  rw [if_neg hne_join, if_pos hmem4]
  by_cases hhash : jhashable ((jget data "room").getD (.jstr "default")) = true
  · rw [if_pos hhash]
    refine ⟨rfl, ?_, ?_⟩
    · intro ms hms
      unfold broadcast_to_room
      rw [hms]
      simp only []
      congr 1
      apply List.filter_congr
      intro w hw
      obtain ⟨info, hinfo, _⟩ := (hrooms _ ms hms).2.2.2 w hw
      rw [hinfo]
      simp
    · intro hnone
      unfold broadcast_to_room
      rw [hnone]
  · rw [if_neg hhash]
    refine ⟨rfl, ?_, fun _ => rfl⟩
    intro ms hms
    exact absurd (hrooms _ ms hms).1 hhash

/-- Witness for C6: an `offer` into room `a` from member 1 is delivered
exactly to member 2. -/
theorem relay_broadcast_witness :
    goodServer ⟨[(1, ⟨[.jstr "a"]⟩), (2, ⟨[.jstr "a"]⟩)], [(.jstr "a", [1, 2])]⟩ = true ∧
      jget (.objCons "type" (.jstr "offer") (.objCons "room" (.jstr "a") .objNil)) "type" =
        some (.jstr "offer") ∧
      (handle_message ⟨[(1, ⟨[.jstr "a"]⟩), (2, ⟨[.jstr "a"]⟩)], [(.jstr "a", [1, 2])]⟩ 1
          (some (.objCons "type" (.jstr "offer") (.objCons "room" (.jstr "a") .objNil)))).2 =
        ([1, 2].filter fun w => w != 1).map
          fun w => (w, JVal.objCons "type" (.jstr "offer") (.objCons "room" (.jstr "a") .objNil)) :=
  ⟨by decide, by decide,
    (relay_broadcast _ 1 _ "offer" (by decide) (by decide) (Or.inr (Or.inl rfl))).2.1
      [1, 2] (by decide)⟩

/-- C9: a text payload that is not valid JSON (`json.loads` raises), or
a decoded message whose `type` is none of `join`, `presence`, `offer`,
`answer`, `ice-candidate`, is dropped silently: both registries and all
room memberships are unchanged, nothing is sent to anyone, and the
sender's connection is not closed (the state, including its client
record, is untouched). -/
theorem drop_unrecognized (st : ServerState) (ws : ConnId) (decoded : Option JVal)
    (h : decoded = none ∨ ∃ data, decoded = some data ∧
      jget data "type" ∉ [some (JVal.jstr "join"), some (.jstr "presence"),
        some (.jstr "offer"), some (.jstr "answer"), some (.jstr "ice-candidate")]) :
    handle_message st ws decoded = (st, []) := by
  rcases h with h | ⟨data, hd, hnotin⟩
  · subst h
    rfl
  · subst hd
    simp only [List.mem_cons, not_or] at hnotin
    obtain ⟨h1, h2, h3, h4, h5, _⟩ := hnotin
    unfold handle_message
    simp only []
    rw [if_neg h1, if_neg (by simp [h2, h3, h4, h5])]

/-- Witness for C9: a JSON string (no `type` field at all) sent in a
populated state changes nothing and produces no sends. -/
theorem drop_unrecognized_witness :
    handle_message ⟨[(1, ⟨[.jstr "a"]⟩), (2, ⟨[.jstr "a"]⟩)], [(.jstr "a", [1, 2])]⟩ 1
        (some (.jstr "hello")) =
      (⟨[(1, ⟨[.jstr "a"]⟩), (2, ⟨[.jstr "a"]⟩)], [(.jstr "a", [1, 2])]⟩, []) :=
  drop_unrecognized _ 1 _ (Or.inr ⟨.jstr "hello", rfl, by decide⟩)

/-! ## Connection loop (`handle_client`, lines 104-187) -/

/-- Strict UTF-8 decoding, the behavior of `bytes.decode('utf-8')` of
the Python standard library (not repository code), per RFC 3629:
rejects invalid lead and continuation bytes, overlong encodings,
surrogates and code points beyond U+10FFFF; `none` models the raised
`UnicodeDecodeError`. -/
def utf8Decode : List Nat → Option (List Char)
  | [] => some []
  | b :: rest =>
    if b < 128 then (utf8Decode rest).map fun cs => Char.ofNat b :: cs
    else if 194 ≤ b ∧ b ≤ 223 then
      match rest with
      | c1 :: rest2 =>
        if 128 ≤ c1 ∧ c1 ≤ 191 then
          (utf8Decode rest2).map fun cs => Char.ofNat ((b - 192) * 64 + (c1 - 128)) :: cs
        else none
      | [] => none
    else if 224 ≤ b ∧ b ≤ 239 then
      match rest with
      | c1 :: c2 :: rest2 =>
        if (if b = 224 then 160 ≤ c1 ∧ c1 ≤ 191
            else if b = 237 then 128 ≤ c1 ∧ c1 ≤ 159
            else 128 ≤ c1 ∧ c1 ≤ 191) ∧ 128 ≤ c2 ∧ c2 ≤ 191 then
          (utf8Decode rest2).map fun cs =>
            Char.ofNat ((b - 224) * 4096 + (c1 - 128) * 64 + (c2 - 128)) :: cs
        else none
      | _ => none
    else if 240 ≤ b ∧ b ≤ 244 then
      match rest with
      | c1 :: c2 :: c3 :: rest2 =>
        if (if b = 240 then 144 ≤ c1 ∧ c1 ≤ 191
            else if b = 244 then 128 ≤ c1 ∧ c1 ≤ 143
            else 128 ≤ c1 ∧ c1 ≤ 191) ∧ 128 ≤ c2 ∧ c2 ≤ 191 ∧ 128 ≤ c3 ∧ c3 ≤ 191 then
          (utf8Decode rest2).map fun cs =>
            Char.ofNat ((b - 240) * 262144 + (c1 - 128) * 4096 + (c2 - 128) * 64 +
              (c3 - 128)) :: cs
        else none
      | _ => none
    else none

/-- Modelled from the spec: `json.loads` of the Python standard library
is not repository code; this recursive-descent reading of the §6
control-message JSON (null, booleans, integer numbers, escape-free
strings, arrays, objects) stands in for it.  No claim's theorem depends
on its verdict: the registry claims take the decoded value directly. -/
def jsonSkipWs : List Char → List Char
  | c :: rest =>
    if c = ' ' ∨ c = '\t' ∨ c = '\n' ∨ c = '\r' then jsonSkipWs rest else c :: rest
  | [] => []

/-- String literal body after the opening quote (escape-free). -/
def jsonStr : List Char → Option (String × List Char)
  | '"' :: rest => some ("", rest)
  | c :: rest =>
    if c = '\\' then none
    else (jsonStr rest).map fun p => (⟨c :: p.1.data⟩, p.2)
  | [] => none

def digitsToNat (ds : List Char) : Nat :=
  ds.foldl (fun n c => n * 10 + (c.toNat - 48)) 0

/-- Integer literals. -/
def jsonNum (input : List Char) : Option (JVal × List Char) :=
  match input with
  | '-' :: rest =>
    let ds := rest.takeWhile fun c => decide ('0' ≤ c ∧ c ≤ '9')
    if ds = [] then none
    else some (.jnum (-(digitsToNat ds : Int)), rest.drop ds.length)
  | _ =>
    let ds := input.takeWhile fun c => decide ('0' ≤ c ∧ c ≤ '9')
    if ds = [] then none
    else some (.jnum (digitsToNat ds), input.drop ds.length)

mutual

def jsonVal : Nat → List Char → Option (JVal × List Char)
  | 0, _ => none
  | fuel + 1, input =>
    match jsonSkipWs input with
    | 'n' :: 'u' :: 'l' :: 'l' :: rest => some (.jnull, rest)
    | 't' :: 'r' :: 'u' :: 'e' :: rest => some (.jbool true, rest)
    | 'f' :: 'a' :: 'l' :: 's' :: 'e' :: rest => some (.jbool false, rest)
    | '"' :: rest => (jsonStr rest).map fun p => (JVal.jstr p.1, p.2)
    | '[' :: rest =>
      match jsonSkipWs rest with
      | ']' :: rest2 => some (.arrNil, rest2)
      | rest2 => jsonArrItems fuel rest2
    | '\x7b' :: rest =>
      match jsonSkipWs rest with
      | '\x7d' :: rest2 => some (.objNil, rest2)
      | rest2 => jsonObjItems fuel rest2
    | rest => jsonNum rest

def jsonArrItems : Nat → List Char → Option (JVal × List Char)
  | 0, _ => none
  | fuel + 1, input =>
    match jsonVal fuel input with
    | none => none
    | some (v, rest) =>
      match jsonSkipWs rest with
      | ',' :: rest2 =>
        match jsonArrItems fuel rest2 with
        | some (tail, rest3) => some (.arrCons v tail, rest3)
        | none => none
      | ']' :: rest2 => some (.arrCons v .arrNil, rest2)
      | _ => none

def jsonObjItems : Nat → List Char → Option (JVal × List Char)
  | 0, _ => none
  | fuel + 1, input =>
    match jsonSkipWs input with
    | '"' :: rest =>
      match jsonStr rest with
      | none => none
      | some (k, rest2) =>
        match jsonSkipWs rest2 with
        | ':' :: rest3 =>
          match jsonVal fuel rest3 with
          | none => none
          | some (v, rest4) =>
            match jsonSkipWs rest4 with
            | ',' :: rest5 =>
              match jsonObjItems fuel rest5 with
              | some (tail, rest6) => some (.objCons k v tail, rest6)
              | none => none
            | '\x7d' :: rest5 => some (.objCons k v .objNil, rest5)
            | _ => none
        | _ => none
    | _ => none

end

/-- `json.loads` on a whole document. -/
def jsonDecode (input : List Char) : Option JVal :=
  match jsonVal (input.length + 1) input with
  | some (v, rest) => if jsonSkipWs rest = [] then some v else none
  | none => none

/-- Socket writes performed by the read loop: a pong frame echoed to the
connection itself (line 177-179), or a JSON delivery made by
`handle_message` / `broadcast_to_room`. -/
inductive OutEvent where
  | pong (payload : List Nat)
  | jsonOut (target : ConnId) (msg : JVal)
  deriving DecidableEq, Repr

/-- Why the frame loop stopped before its input was exhausted. -/
inductive LoopEnd where
  | closeFrame
  | crashed
  deriving DecidableEq, Repr

/-- Dispatch of one parsed frame (lines 172-181): a close frame (0x8)
runs `close_connection` and returns from `handle_client`; a ping (0x9)
echoes a pong built from the same payload; a text frame (0x1) decodes
its payload as UTF-8 — a decode failure is an uncaught exception that
aborts the loop (`crashed`) — and hands the JSON decode to
`handle_message`; any other opcode is ignored. -/
def dispatchFrame (st : ServerState) (ws : ConnId) (fr : Frame) :
    ServerState × List OutEvent × Option LoopEnd :=
  if fr.opcode = 8 then (close_connection st ws, [], some .closeFrame)
  else if fr.opcode = 9 then (st, [.pong fr.payload], none)
  else if fr.opcode = 1 then
    match utf8Decode fr.payload with
    | none => (st, [], some .crashed)
    | some chars =>
      let res := handle_message st ws (jsonDecode chars)
      (res.1, res.2.map fun p => .jsonOut p.1 p.2, none)
  else (st, [], none)

/-- The read loop (lines 158-181) at frame granularity: dispatch the
frames drained from the buffer in order, stopping early when one frame
ends the loop. -/
def runFrames (st : ServerState) (ws : ConnId) :
    List Frame → ServerState × List OutEvent × Option LoopEnd
  | [] => (st, [], none)
  | fr :: rest =>
    match dispatchFrame st ws fr with
    | (st2, outs, some e) => (st2, outs, some e)
    | (st2, outs, none) =>
      let res := runFrames st2 ws rest
      (res.1, outs ++ res.2.1, res.2.2)

/-- `handle_client`'s try/except/finally (lines 109-187) around the
loop: however the loop ends — close frame, end of stream, or an escaped
exception — `close_connection` runs in the `finally` (idempotently). -/
def handleClientFrames (st : ServerState) (ws : ConnId) (frames : List Frame) :
    ServerState × List OutEvent :=
  let res := runFrames st ws frames
  (close_connection res.1 ws, res.2.1)

/-- C10: a text frame whose payload is not valid UTF-8 is not dropped
with the loop continuing: the decode failure escapes the per-frame
handling, the read loop stops with no later frame processed and nothing
sent, and the `finally` tears the connection down — afterwards (in a
well-formed state) the connection is gone from the client registry and
from every room's member set. -/
theorem invalid_utf8_teardown (st : ServerState) (ws : ConnId) (fr : Frame)
    (rest : List Frame) (hop : fr.opcode = 1) (hbad : utf8Decode fr.payload = none)
    (hgood : goodServer st = true) :
    runFrames st ws (fr :: rest) = (st, [], some .crashed) ∧
    handleClientFrames st ws (fr :: rest) = (close_connection st ws, []) ∧
    mapGet (close_connection st ws).clients ws = none ∧
    (∀ r ms, mapGet (close_connection st ws).rooms r = some ms → ws ∉ ms) := by
  have hdisp : dispatchFrame st ws fr = (st, [], some .crashed) := by
    unfold dispatchFrame
    rw [hop]
    simp [hbad]
  have hrun : runFrames st ws (fr :: rest) = (st, [], some .crashed) := by
    unfold runFrames
    rw [hdisp]
  refine ⟨hrun, ?_, close_gone_clients st ws (goodServer_spec st hgood).1,
    close_gone_rooms st ws hgood⟩
  unfold handleClientFrames
  rw [hrun]

/-- Witness for C10: the lone byte `0xFF` is not valid UTF-8. -/
theorem invalid_utf8_teardown_witness :
    (⟨1, 1, [255], 3⟩ : Frame).opcode = 1 ∧
      utf8Decode (⟨1, 1, [255], 3⟩ : Frame).payload = none ∧
      goodServer ⟨[(1, ⟨[.jstr "a"]⟩), (2, ⟨[.jstr "a"]⟩)], [(.jstr "a", [1, 2])]⟩ = true ∧
      runFrames ⟨[(1, ⟨[.jstr "a"]⟩), (2, ⟨[.jstr "a"]⟩)], [(.jstr "a", [1, 2])]⟩ 1
          [⟨1, 1, [255], 3⟩] =
        (⟨[(1, ⟨[.jstr "a"]⟩), (2, ⟨[.jstr "a"]⟩)], [(.jstr "a", [1, 2])]⟩, [],
          some .crashed) :=
  ⟨by decide, by decide, by decide,
    (invalid_utf8_teardown _ 1 _ [] (by decide) (by decide) (by decide)).1⟩

/-! ## Broadcast under cooperative concurrency (C1)

`broadcast_to_room` (lines 245-251) iterates `self.rooms[room_id]` — the
live set object — and awaits `client_ws.drain()` inside the loop.  Every
such await is a suspension point at which another connection's task may
run `handle_message`/`join` (line 206, `self.rooms[room_id].add(...)`)
or `close_connection` (line 263, `...discard(...)`) on the very set
being iterated.  No copy of the membership is ever taken. -/

/-- A registry mutation another task can perform on the iterated room
while a send is suspended: a join by a non-member, removal of a member
during teardown, or nothing (`tick`). -/
inductive REv where
  | tick
  | joinRoom (w : ConnId)
  | leaveRoom (w : ConnId)
  deriving DecidableEq, Repr

/-- Effect of a concurrent event on the live member set. -/
def applyREv (live : List ConnId) (e : REv) : List ConnId :=
  match e with
  | .tick => live
  | .joinRoom w => if w ∈ live then live else w :: live
  | .leaveRoom w => live.erase w

/-- The `for client_ws in self.rooms[room_id]` loop of
`broadcast_to_room` under the cooperative scheduler, iterating the live
set:

* each attempted send (`write` plus awaited `drain`, lines 248-249) is a
  suspension point, at which the next scheduled event mutates the live
  set;
* before yielding each element — and also on the terminating call — the
  CPython set iterator raises `RuntimeError` ("Set changed size during
  iteration") whenever the set's current size differs from its size at
  the iterator's creation;
* members equal to `exclude` or absent from the client registry are
  skipped without suspending (line 246).

`Except.error sent` is the `RuntimeError` escaping the loop (it
propagates out of `broadcast_to_room`, whose per-send try/except does
not cover the iterator) after the deliveries in `sent`;
`Except.ok sent` is a completed iteration. -/
def broadcastLiveAux (size0 exclude : Nat) (clients : List ConnId) :
    List ConnId → List ConnId → List REv → List ConnId →
      Except (List ConnId) (List ConnId)
  | [], live, _, sent =>
    if live.length ≠ size0 then .error sent else .ok sent
  | m :: restP, live, sched, sent =>
    if live.length ≠ size0 then .error sent
    else if m = exclude ∨ m ∉ clients then
      broadcastLiveAux size0 exclude clients restP live sched sent
    else
      match sched with
      | [] => broadcastLiveAux size0 exclude clients restP live [] (sent ++ [m])
      | e :: es =>
        broadcastLiveAux size0 exclude clients restP (applyREv live e) es (sent ++ [m])

/-- Run the live-set broadcast loop from the start: the iterator is
created on the room's member set, whose size at that moment is the
reference size. -/
def broadcastLive (members : List ConnId) (exclude : ConnId) (clients : List ConnId)
    (sched : List REv) : Except (List ConnId) (List ConnId) :=
  broadcastLiveAux members.length exclude clients members members sched []

/-- Modelled from the spec: the snapshot broadcast mandated by §4.4/§5
("copy members, then send") is absent from the source; this is the
delivery set a broadcast over a point-in-time copy would attempt. -/
def broadcastSnapshot (members : List ConnId) (exclude : ConnId)
    (clients : List ConnId) : List ConnId :=
  members.filter fun w => w != exclude && clients.contains w

/-- C1 (the claim fails on the code): with room members `[1, 2, 3]`,
sender 1 broadcasting to the others, and connection 4 joining the room
while the send to member 2 is suspended at `drain()`, the live-set
iteration of `broadcast_to_room` raises `RuntimeError` having delivered
only to member 2 — member 3 is never attempted — whereas the snapshot
iteration the spec mandates delivers to `[2, 3]` (as the live loop also
does when nothing intervenes).  The code therefore neither operates on a
point-in-time copy nor keeps iteration failure-free under concurrent
membership changes. -/
theorem broadcast_live_iteration_fails :
    broadcastLive [1, 2, 3] 1 [1, 2, 3, 4] [REv.joinRoom 4] = .error [2] ∧
    broadcastSnapshot [1, 2, 3] 1 [1, 2, 3, 4] = [2, 3] ∧
    broadcastLive [1, 2, 3] 1 [1, 2, 3, 4] [REv.tick, REv.tick] = .ok [2, 3] :=
  ⟨rfl, rfl, rfl⟩
